import Mathlib

/-!
Verification of the code-buddy webhook ingestion-and-retention pipeline.

This file shallowly embeds the relevant parts of the repository:
  * `webhook_processor.py` — `WebhookProcessor.verify_signature`,
    `WebhookProcessor.parse_event` (with its `_extract_*` / `_parse_*`
    helpers) and `WebhookProcessor.should_process_event`;
  * `event_store.py` — `EventStore.__init__` / `_load_events` /
    `_save_events` / `add_event` / `get_events` / `get_event_by_id`.

Modelling conventions:
  * Python `None` is `Option.none`; a JSON value that may be absent or
    null is an `Option` (absence and null behave identically under the
    source's `dict.get(key)` with a `None` default, so they are merged,
    except where a non-`None` default makes the distinction observable —
    only the repository `private` field, modelled with a nested option).
  * Python exceptions are `Except String`; a caught exception is a
    branch mapping the error to the source's fallback value.
  * The bounded `collections.deque(maxlen=N)` is a `List` together with
    `dequeAppend`, which drops from the head on overflow.
  * `hashlib`/`hmac` digests are abstracted by the hex-digest string the
    source compares against (the digest value is opaque to all the
    control flow being verified; hex digests never contain `=`).
  * `datetime.fromisoformat` is abstracted by a parse function
    `String → Option Int` universally quantified in the theorems
    (`none` models a raised `ValueError`).
  * `str.lower` is modelled on the ASCII range (`lowerStr`).
-/

/-- Python truthiness of an optional string (`None` and `""` are falsy). -/
def pyTruthy : Option String → Bool
  | none => false
  | some s => s ≠ ""

/-- ASCII lower-casing of one character, as `str.lower` does on ASCII. -/
def lowerChar (c : Char) : Char :=
  if 'A' ≤ c ∧ c ≤ 'Z' then Char.ofNat (c.toNat + 32) else c

/-- ASCII lower-casing of a string (model of Python `str.lower()`). -/
def lowerStr (s : String) : String := ⟨s.data.map lowerChar⟩

/-- Python `pat in hay` substring membership on strings. -/
def containsSub (hay pat : String) : Bool :=
  (List.range (hay.data.length + 1)).any (fun i => pat.data.isPrefixOf (hay.data.drop i))

/-- Python `s.replace('Z', '+00:00')`. -/
def replaceZ (s : String) : String :=
  ⟨s.data.foldr (fun c acc =>
     if c = 'Z' then '+' :: '0' :: '0' :: ':' :: '0' :: '0' :: acc else c :: acc) []⟩

/-- Python `s.lower()` applied to a value that may be `None`:
`None.lower()` raises `AttributeError`. -/
def pyLower : Option String → Except String String
  | none => Except.error "AttributeError"
  | some s => Except.ok (lowerStr s)

/-- Python `split('=')` on the character list of a string: splits at every
occurrence of `'='`, keeping empty pieces (so the result is never empty). -/
def splitOnEq : List Char → List (List Char)
  | [] => [[]]
  | c :: rest =>
    let r := splitOnEq rest
    if c = '=' then [] :: r
    else
      match r with
      | [] => [[c]]
      | l :: ls => (c :: l) :: ls

/-- The last `n` elements of a list, in order. -/
def takeLast (n : Nat) (l : List α) : List α := l.drop (l.length - n)

/-- One `append` on a `collections.deque(maxlen=n)`: append at the tail,
then evict from the head while over capacity. -/
def dequeAppend (n : Nat) (l : List α) (e : α) : List α :=
  if n < (l ++ [e]).length then (l ++ [e]).drop ((l ++ [e]).length - n) else l ++ [e]

/-- Python slice `l[-n:]` (note the quirk: for `n = 0` this is the whole
list, since `l[-0:] = l[0:]`). -/
def pySliceLast (n : Nat) (l : List α) : List α :=
  if n = 0 then l else l.drop (l.length - n)

/-! ## Data model (normalized events and source payloads) -/

/-- The `repository` sub-payload of a webhook payload (`payload['repository']`). -/
structure RepoPayload where
  id : Option Int
  name : Option String
  full_name : Option String
  html_url : Option String
  /-- Here `none` = key absent, `some none` = JSON null, `some (some b)` = a bool;
  the distinction is observable because `repo.get('private', False)` has a
  non-`None` default. -/
  private_field : Option (Option Bool)
  default_branch : Option String
deriving DecidableEq

/-- The `sender` sub-payload. -/
structure SenderPayload where
  id : Option Int
  login : Option String
  name : Option String
  email : Option String
  avatar_url : Option String
deriving DecidableEq

/-- The `organization` sub-payload. -/
structure OrgPayload where
  id : Option Int
  login : Option String
  name : Option String
  html_url : Option String
deriving DecidableEq

/-- A commit author inside a push payload. -/
structure AuthorPayload where
  name : Option String
deriving DecidableEq

/-- One element of `payload['commits']`. -/
structure CommitPayload where
  id : Option String
  message : Option String
  author : Option AuthorPayload
  url : Option String
deriving DecidableEq

/-- The `payload['pusher']` record. -/
structure PusherPayload where
  name : Option String
deriving DecidableEq

/-- A label inside an issue payload. -/
structure LabelPayload where
  name : Option String
deriving DecidableEq

/-- An assignee inside an issue payload. -/
structure AssigneePayload where
  login : Option String
deriving DecidableEq

/-- The `payload['issue']` record. -/
structure IssuePayload where
  id : Option Int
  number : Option Int
  title : Option String
  body : Option String
  state : Option String
  labels : List LabelPayload
  assignees : List AssigneePayload
  html_url : Option String
deriving DecidableEq

/-- The `head`/`base` records of a pull-request payload. -/
structure BranchRefPayload where
  ref : Option String
  sha : Option String
deriving DecidableEq

/-- The `payload['pull_request']` record. -/
structure PrPayload where
  id : Option Int
  number : Option Int
  title : Option String
  body : Option String
  state : Option String
  merged : Option Bool
  mergeable : Option Bool
  head : Option BranchRefPayload
  base : Option BranchRefPayload
  html_url : Option String
deriving DecidableEq

/-- The `payload['release']` record. -/
structure ReleasePayload where
  id : Option Int
  tag_name : Option String
  name : Option String
  body : Option String
  draft : Option Bool
  prerelease : Option Bool
  html_url : Option String
deriving DecidableEq

/-- A GitHub webhook JSON payload, restricted to the keys the processor reads. -/
structure Payload where
  action : Option String
  repository : Option RepoPayload
  sender : Option SenderPayload
  organization : Option OrgPayload
  ref : Option String
  before : Option String
  after : Option String
  commits : List CommitPayload
  pusher : Option PusherPayload
  issue : Option IssuePayload
  pull_request : Option PrPayload
  release : Option ReleasePayload
deriving DecidableEq

/-- The normalized `repository` record built by `_extract_repository_info`. -/
structure RepoInfo where
  id : Option Int
  name : Option String
  full_name : Option String
  url : Option String
  private_flag : Option Bool
  default_branch : Option String
deriving DecidableEq

/-- The normalized `sender` record built by `_extract_sender_info`. -/
structure SenderInfo where
  id : Option Int
  login : Option String
  name : Option String
  email : Option String
  avatar_url : Option String
deriving DecidableEq

/-- The normalized `organization` record built by `_extract_organization_info`. -/
structure OrgInfo where
  id : Option Int
  login : Option String
  name : Option String
  url : Option String
deriving DecidableEq

/-- A normalized commit entry (from `_parse_push_event`). -/
structure CommitInfo where
  id : Option String
  message : Option String
  author : Option String
  url : Option String
deriving DecidableEq

/-- The category-specific extension block merged into the normalized event by
`parse_event`'s dispatch on `event_type`. -/
inductive ExtData where
  | pushData (ref before after : Option String)
      (commits : List CommitInfo) (pusher : Option String)
  | issuesData (issue_id number : Option Int) (title body state : Option String)
      (labels : List (Option String)) (assignees : List (Option String))
      (url : Option String)
  | prData (pr_id number : Option Int) (title body state : Option String)
      (merged mergeable : Option Bool)
      (head_ref head_sha base_ref base_sha : Option String) (url : Option String)
  | releaseData (release_id : Option Int) (tag_name name body : Option String)
      (draft prerelease : Option Bool) (url : Option String)
deriving DecidableEq

/-- A normalized event record, as built by `WebhookProcessor.parse_event`.
The degraded `parse_error` record lacks the common keys, hence the options. -/
structure Event where
  event_type : String
  delivery_id : Option String
  timestamp : Option String
  action : Option String
  repository : Option RepoInfo
  sender : Option SenderInfo
  organization : Option OrgInfo
  ext : Option ExtData
  error_msg : Option String
  raw_payload : Option Payload
deriving DecidableEq

/-! ## `webhook_processor.py` — WebhookProcessor -/

/-- Model of `WebhookProcessor.verify_signature(payload_body, signature_header)`.
`expected` stands for `hmac.new(WEBHOOK_SECRET.encode(), payload_body,
hashlib.sha256).hexdigest()` — the lowercase hex digest the source computes
for the given body.  The source returns `False` for a falsy header, splits
the header on every `'='` (a count other than exactly two pieces raises
`ValueError`, caught and mapped to `False`), rejects a scheme other than
`sha256`, and otherwise compares the digest with `hmac.compare_digest`
(equality of the two strings). -/
def verify_signature (expected : String) (signature_header : Option String) : Bool :=
  if pyTruthy signature_header = false then false
  else
    match splitOnEq (signature_header.getD "").data with
    | [sha_name, sig] =>
      if String.mk sha_name ≠ "sha256" then false
      else expected = String.mk sig
    | _ => false

/-- Model of `WebhookProcessor._extract_repository_info(payload)`. -/
def extract_repository_info (p : Payload) : RepoInfo :=
  match p.repository with
  | none =>
    { id := none, name := none, full_name := none, url := none,
      private_flag := some false, default_branch := none }
  | some r =>
    { id := r.id, name := r.name, full_name := r.full_name, url := r.html_url,
      private_flag := (match r.private_field with
                       | none => some false
                       | some v => v),
      default_branch := r.default_branch }

/-- Model of `WebhookProcessor._extract_sender_info(payload)`. -/
def extract_sender_info (p : Payload) : SenderInfo :=
  match p.sender with
  | none => { id := none, login := none, name := none, email := none, avatar_url := none }
  | some s =>
    { id := s.id, login := s.login, name := s.name, email := s.email,
      avatar_url := s.avatar_url }

/-- Model of `WebhookProcessor._extract_organization_info(payload)`. -/
def extract_organization_info (p : Payload) : OrgInfo :=
  match p.organization with
  | none => { id := none, login := none, name := none, url := none }
  | some o => { id := o.id, login := o.login, name := o.name, url := o.html_url }

/-- Model of `WebhookProcessor._parse_push_event(payload)`. -/
def parse_push_event (p : Payload) : ExtData :=
  ExtData.pushData p.ref p.before p.after
    (p.commits.map (fun c =>
      { id := c.id, message := c.message,
        author := (match c.author with
                   | none => none
                   | some a => a.name),
        url := c.url }))
    (match p.pusher with
     | none => none
     | some pu => pu.name)

/-- Model of `WebhookProcessor._parse_issue_event(payload)`. -/
def parse_issue_event (p : Payload) : ExtData :=
  match p.issue with
  | none => ExtData.issuesData none none none none none [] [] none
  | some i =>
    ExtData.issuesData i.id i.number i.title i.body i.state
      (i.labels.map (fun lb => lb.name))
      (i.assignees.map (fun a => a.login))
      i.html_url

/-- Model of `WebhookProcessor._parse_pull_request_event(payload)`. -/
def parse_pull_request_event (p : Payload) : ExtData :=
  match p.pull_request with
  | none =>
    ExtData.prData none none none none none none none none none none none none
  | some pr =>
    ExtData.prData pr.id pr.number pr.title pr.body pr.state pr.merged pr.mergeable
      (match pr.head with | none => none | some h => h.ref)
      (match pr.head with | none => none | some h => h.sha)
      (match pr.base with | none => none | some b => b.ref)
      (match pr.base with | none => none | some b => b.sha)
      pr.html_url

/-- Model of `WebhookProcessor._parse_release_event(payload)`. -/
def parse_release_event (p : Payload) : ExtData :=
  match p.release with
  | none => ExtData.releaseData none none none none none none none
  | some r =>
    ExtData.releaseData r.id r.tag_name r.name r.body r.draft r.prerelease r.html_url

/-- Model of `WebhookProcessor.parse_event(payload)`.

`event_type_header` / `delivery_id_header` are the transport metadata the
source reads via `request.headers.get('X-GitHub-Event', 'unknown')` and
`request.headers.get('X-GitHub-Delivery', 'unknown')` (the default applies
only when the header is absent; a present-but-empty header passes through
as `""`); `now` is `datetime.utcnow().isoformat()` at ingestion time.
`payload := none` models `payload = None` (the one value on which the body
raises — `None.get` is an `AttributeError` — so the `except` branch returns
the degraded record `{'event_type': 'parse_error', 'error': ...,
'raw_payload': payload}`, which has no other keys). -/
def parse_event (payload : Option Payload)
    (event_type_header delivery_id_header : Option String) (now : String) : Event :=
  match payload with
  | none =>
    { event_type := "parse_error", delivery_id := none, timestamp := none,
      action := none, repository := none, sender := none, organization := none,
      ext := none, error_msg := some "AttributeError", raw_payload := none }
  | some p =>
    let et := event_type_header.getD "unknown"
    { event_type := et,
      delivery_id := some (delivery_id_header.getD "unknown"),
      timestamp := some now,
      action := p.action,
      repository := some (extract_repository_info p),
      sender := some (extract_sender_info p),
      organization := some (extract_organization_info p),
      ext := if et = "push" then some (parse_push_event p)
             else if et = "issues" then some (parse_issue_event p)
             else if et = "pull_request" then some (parse_pull_request_event p)
             else if et = "release" then some (parse_release_event p)
             else none,
      error_msg := none,
      raw_payload := some p }

/-- Model of `WebhookProcessor.should_process_event(event)`.

The source computes `repo_name = event.get('repository', {}).get('name',
'').lower()`: when the `repository` key is absent the inner `.get` falls
back to `''`, but when it is present with `name = None` the `.get` returns
`None` and `None.lower()` raises `AttributeError` (hence `Except`). -/
def should_process_event (event : Event) : Except String Bool :=
  if event.event_type = "parse_error" then Except.ok false
  else
    match pyLower (match event.repository with
                   | none => some ""
                   | some r => r.name) with
    | Except.error e => Except.error e
    | Except.ok repo_name =>
      if containsSub repo_name "test" then Except.ok false
      else Except.ok true

/-! ## `event_store.py` — EventStore -/

/-- The state of an `EventStore`: the in-memory bounded deque, its capacity,
and the durable file (`none` = the file does not exist, `some l` = it holds
the JSON array `l`). -/
structure EventStore where
  max_size : Nat
  events : List Event
  file : Option (List Event)

/-- Model of `EventStore.__init__` / `_load_events`.  Here `disk` is the state of the
persistence file at construction time: `none` — the file does not exist (no
load is attempted); `some (Except.error e)` — opening or JSON-decoding it
raised (the exception is caught, a warning is logged, the store starts
empty); `some (Except.ok l)` — it decodes to the array `l`, of which
`events[-max_size:]` are extended into the fresh `deque(maxlen=max_size)`. -/
def EventStore.init (max_size : Nat) (disk : Option (Except String (List Event))) :
    EventStore :=
  let loaded :=
    match disk with
    | some (Except.ok l) => (pySliceLast max_size l).foldl (dequeAppend max_size) []
    | _ => []
  { max_size := max_size, events := loaded,
    file := match disk with
            | some (Except.ok l) => some l
            | _ => none }

/-- Model of `EventStore.add_event(event)`: append to the bounded deque, then
`_save_events` (a full snapshot write).  `saveOk` says whether the file
write succeeds; on failure the exception is caught and logged, so the call
returns normally either way and only the durable file differs. -/
def EventStore.add_event (s : EventStore) (e : Event) (saveOk : Bool) : EventStore :=
  let evs := dequeAppend s.max_size s.events e
  { s with events := evs, file := if saveOk then some evs else s.file }

/-- The scan loop of `EventStore.get_event_by_id`: first match in insertion order. -/
def findById (delivery_id : String) : List Event → Option Event
  | [] => none
  | e :: rest =>
    if e.delivery_id = some delivery_id then some e else findById delivery_id rest

/-- Model of `EventStore.get_event_by_id(delivery_id)`. -/
def EventStore.get_event_by_id (s : EventStore) (delivery_id : String) : Option Event :=
  findById delivery_id s.events

/-- The `since_dt` computed at the top of `EventStore.get_events`:
`None` unless `since` is truthy and
`datetime.fromisoformat(since.replace('Z', '+00:00'))` succeeds
(`parseTs` models `fromisoformat`; `none` is a raised, caught exception). -/
def sinceDt (parseTs : String → Option Int) (since : Option String) : Option Int :=
  if pyTruthy since then parseTs (replaceZ (since.getD "")) else none

/-- The timestamp filter inside `get_events`'s loop: with a parsed `since`
bound, an event is skipped only when its `timestamp` is truthy, parses, and
is strictly below the bound; a missing, empty or unparsable timestamp
passes (the parse exception is caught by a bare `except: pass`). -/
def sinceCheckB (parseTs : String → Option Int) (since_dt : Option Int)
    (e : Event) : Bool :=
  match since_dt with
  | none => true
  | some t0 =>
    match e.timestamp with
    | none => true
    | some ts =>
      if ts = "" then true
      else
        match parseTs (replaceZ ts) with
        | none => true
        | some t => !(t < t0)

/-- One iteration of `get_events`'s filter chain over one event, with the
source's evaluation order: the `event_type` filter first, then the
repository filter (`repository.lower() not in repo_full_name.lower() and
repository.lower() not in repo_name.lower()` — `repo_full_name` /
`repo_name` are `event.get('repository', {}).get('full_name' / 'name', '')`,
which is `None` when the repository record is present with a null field, so
`.lower()` can raise `AttributeError`), then the timestamp filter.
`Except.ok true` = the event is kept, `Except.ok false` = `continue`. -/
def passesE (parseTs : String → Option Int)
    (event_type repository : Option String) (since_dt : Option Int)
    (e : Event) : Except String Bool :=
  if pyTruthy event_type && !(e.event_type = event_type.getD "") then Except.ok false
  else if pyTruthy repository then
    match pyLower (match e.repository with
                   | none => some ""
                   | some r => r.full_name) with
    | Except.error err => Except.error err
    | Except.ok fl =>
      if containsSub fl (lowerStr (repository.getD "")) then
        Except.ok (sinceCheckB parseTs since_dt e)
      else
        match pyLower (match e.repository with
                       | none => some ""
                       | some r => r.name) with
        | Except.error err => Except.error err
        | Except.ok nl =>
          if containsSub nl (lowerStr (repository.getD "")) then
            Except.ok (sinceCheckB parseTs since_dt e)
          else Except.ok false
  else Except.ok (sinceCheckB parseTs since_dt e)

/-- The `for event in reversed(self.events)` loop of `get_events`:
matching events are appended to `results` and the loop breaks as soon as
`len(results) >= limit` — a check made only after an append. -/
def collectLoop (p : Event → Except String Bool) (limit : Int) :
    List Event → List Event → Except String (List Event)
  | [], results => Except.ok results
  | e :: rest, results =>
    match p e with
    | Except.error err => Except.error err
    | Except.ok b =>
      if b then
        let results' := results ++ [e]
        if limit ≤ (results'.length : Int) then Except.ok results'
        else collectLoop p limit rest results'
      else collectLoop p limit rest results

/-- Model of `EventStore.get_events(event_type, repository, limit, since)`. -/
def EventStore.get_events (parseTs : String → Option Int) (s : EventStore)
    (event_type repository : Option String) (limit : Int) (since : Option String) :
    Except String (List Event) :=
  collectLoop (passesE parseTs event_type repository (sinceDt parseTs since)) limit
    s.events.reverse []

/-- The exception-free projection of `passesE`: the same filter chain with
null repository fields read through the `''` default.  `passesE` agrees
with it (as `Except.ok`) whenever `repoFieldsOk` holds. -/
def passesB (parseTs : String → Option Int)
    (event_type repository : Option String) (since_dt : Option Int)
    (e : Event) : Bool :=
  if pyTruthy event_type && !(e.event_type = event_type.getD "") then false
  else if pyTruthy repository then
    if containsSub (lowerStr (match e.repository with
                              | none => ""
                              | some r => r.full_name.getD ""))
         (lowerStr (repository.getD "")) then sinceCheckB parseTs since_dt e
    else if containsSub (lowerStr (match e.repository with
                                   | none => ""
                                   | some r => r.name.getD ""))
              (lowerStr (repository.getD "")) then sinceCheckB parseTs since_dt e
    else false
  else sinceCheckB parseTs since_dt e

/-- Sufficient condition for `get_events` not to raise on `e`: either no
repository filter is given, or `e`'s repository record (when present) has
string-valued `full_name` and `name`. -/
def repoFieldsOk (repository : Option String) (e : Event) : Bool :=
  !(pyTruthy repository) ||
    (match e.repository with
     | none => true
     | some r => r.full_name.isSome && r.name.isSome)

/-! ## Pipeline glue (ingestion control flow) -/

/-- One inbound delivery: the two transport headers, the decoded JSON body
(`none` = `request.get_json()` returned `None`), and the ingestion-time
timestamp `datetime.utcnow().isoformat()` observed for it. -/
structure Delivery where
  event_type_header : Option String
  delivery_id_header : Option String
  payload : Option Payload
  time : String

/-- Modelled from the spec: the ingestion control flow "inbound request →
Verifier → Normalizer → Filter (drop or continue) → Event Log.append"
(spec §2); the repository's webhook handler parses and filters but leaves
the append to the log as a TODO, so the composition of
`parse_event` / `should_process_event` with `EventStore.add_event` is not
under `src/`.  Signature-rejected deliveries never reach the normalizer and
are omitted.  A delivery whose filter call raises is answered with a 500 by
the handler's outer `except` and nothing is appended. -/
def handle_delivery (s : EventStore) (d : Delivery) : EventStore :=
  match should_process_event
      (parse_event d.payload d.event_type_header d.delivery_id_header d.time) with
  | Except.ok true =>
    s.add_event (parse_event d.payload d.event_type_header d.delivery_id_header d.time) true
  | _ => s

/-- Lexicographic `≤` on character lists by code point (the order in which
ISO-8601 ingestion timestamps of a fixed format compare chronologically). -/
def lexLe : List Char → List Char → Bool
  | [], _ => true
  | _ :: _, [] => false
  | a :: as, b :: bs =>
    if a.toNat < b.toNat then true
    else if b.toNat < a.toNat then false
    else lexLe as bs

/-- Lexicographic `≤` on strings. -/
def strLe (a b : String) : Bool := lexLe a.data b.data

/-- The retention invariant of claim C9: every stored event has a non-empty
`event_type` and an ingestion timestamp, and timestamps are non-decreasing
in insertion order. -/
def storeTsInv (l : List Event) : Prop :=
  (∀ e ∈ l, e.event_type ≠ "" ∧ e.timestamp.isSome = true) ∧
  l.Pairwise (fun a b => strLe (a.timestamp.getD "") (b.timestamp.getD "") = true)

/-! ## Sample values used by witnesses and counterexamples -/

/-- A concrete normalized repository record (`acme/widgets`). -/
def repoW : RepoInfo :=
  ⟨some 1, some "widgets", some "acme/widgets", none, some false, none⟩

/-- A concrete stored event. -/
def evW1 : Event :=
  ⟨"issues", some "d1", some "2025-01-01T00:00:01", some "opened",
   some repoW, none, none, none, none, none⟩

/-- A concrete stored event. -/
def evW2 : Event :=
  ⟨"push", some "d2", some "2025-01-01T00:00:02", none,
   some repoW, none, none, none, none, none⟩

/-- A concrete stored event. -/
def evW3 : Event :=
  ⟨"release", some "d3", some "2025-01-01T00:00:03", none,
   some repoW, none, none, none, none, none⟩

/-- A stored event sharing `evW1`'s delivery id but distinguishable from it. -/
def evDup : Event :=
  ⟨"issues", some "d1", some "2025-01-01T00:00:04", some "closed",
   some repoW, none, none, none, none, none⟩

/-- A parse function for witnesses: every timestamp fails to parse. -/
def ptNone : String → Option Int := fun _ => none

/-! ## List and deque lemmas -/

theorem takeLast_of_le {l : List α} {n : Nat} (h : l.length ≤ n) :
    takeLast n l = l := by
  simp [takeLast, Nat.sub_eq_zero_of_le h]

theorem length_takeLast_le (n : Nat) (l : List α) : (takeLast n l).length ≤ n := by
  simp [takeLast]
  omega

theorem dequeAppend_eq_takeLast (n : Nat) (l : List α) (e : α) :
    dequeAppend n l e = takeLast n (l ++ [e]) := by
  simp only [dequeAppend, takeLast]
  by_cases h : n < (l ++ [e]).length
  · rw [if_pos h]
  · rw [if_neg h, Nat.sub_eq_zero_of_le (Nat.le_of_not_lt h), List.drop_zero]

theorem drop_append_left {m : Nat} (a b : List α) (h : m ≤ a.length) :
    a.drop m ++ b = (a ++ b).drop m := by
  rw [List.drop_append_eq_append_drop, Nat.sub_eq_zero_of_le h, List.drop_zero]

theorem takeLast_takeLast_append (n : Nat) (a b : List α) :
    takeLast n (takeLast n a ++ b) = takeLast n (a ++ b) := by
  simp only [takeLast]
  rw [drop_append_left a b (Nat.sub_le _ _), List.drop_drop]
  congr 1
  simp only [List.length_drop, List.length_append]
  omega

theorem foldl_dequeAppend (n : Nat) (es l0 : List α) (h : l0.length ≤ n) :
    es.foldl (dequeAppend n) l0 = takeLast n (l0 ++ es) := by
  induction es generalizing l0 with
  | nil => simp [takeLast_of_le h]
  | cons e es ih =>
    rw [List.foldl_cons, dequeAppend_eq_takeLast,
        ih (takeLast n (l0 ++ [e])) (length_takeLast_le n _),
        takeLast_takeLast_append]
    simp

theorem foldl_add_event_spec (es : List Event) (s : EventStore) (ok : Bool) :
    (es.foldl (fun st e => st.add_event e ok) s).max_size = s.max_size ∧
    (es.foldl (fun st e => st.add_event e ok) s).events
      = es.foldl (dequeAppend s.max_size) s.events := by
  induction es generalizing s with
  | nil => exact ⟨rfl, rfl⟩
  | cons e es ih =>
    simp only [List.foldl_cons]
    have h := ih (s.add_event e ok)
    exact ⟨h.1, h.2⟩

/-! ## Claim C1 — strict FIFO eviction -/

/-- C1: for every capacity `N` and every sequence of `N + k` appends
(`k ≥ 0`) into an event log of capacity `N` (any starting state within
capacity, in particular a fresh one), the log afterwards contains exactly
the last `N` appended events — `es.drop k` — in their original relative
insertion order: eviction is strict FIFO. -/
theorem c1_fifo_eviction (N k : Nat) (s0 : EventStore) (es : List Event)
    (hcap : s0.max_size = N) (hlen0 : s0.events.length ≤ N)
    (hlen : es.length = N + k) :
    (es.foldl (fun st e => st.add_event e true) s0).events = es.drop k ∧
    (es.drop k).length = N := by
  have hspec := foldl_add_event_spec es s0 true
  rw [hspec.2, hcap] at *
  rw [foldl_dequeAppend N es s0.events hlen0]
  constructor
  · simp only [takeLast, List.length_append, hlen]
    have harith : s0.events.length + (N + k) - N = s0.events.length + k := by omega
    rw [harith, List.drop_append_eq_append_drop,
        List.drop_of_length_le (by omega : s0.events.length ≤ s0.events.length + k)]
    simp only [List.nil_append]
    congr 1
    omega
  · simp [hlen]

/-- Witness for C1 at `N = 2`, `k = 1`, a fresh store and three appends. -/
theorem c1_fifo_eviction_witness :
    ((EventStore.init 2 none).max_size = 2 ∧
     (EventStore.init 2 none).events.length ≤ 2 ∧
     ([evW1, evW2, evW3] : List Event).length = 2 + 1) ∧
    (([evW1, evW2, evW3].foldl (fun st e => st.add_event e true)
        (EventStore.init 2 none)).events = [evW1, evW2, evW3].drop 1 ∧
     ([evW1, evW2, evW3].drop 1).length = 2) :=
  ⟨⟨rfl, by decide, rfl⟩,
   c1_fifo_eviction 2 1 (EventStore.init 2 none) [evW1, evW2, evW3] rfl (by decide) rfl⟩

/-! ## Claim C2 — signature verification -/

theorem splitOnEq_ne_nil (l : List Char) : splitOnEq l ≠ [] := by
  cases l with
  | nil => simp [splitOnEq]
  | cons c rest =>
    simp only [splitOnEq]
    by_cases h : c = '='
    · simp [h]
    · simp only [if_neg h]
      cases hr : splitOnEq rest <;> simp

theorem splitOnEq_no_eq (l : List Char) (h : '=' ∉ l) : splitOnEq l = [l] := by
  induction l with
  | nil => rfl
  | cons c rest ih =>
    have hc : c ≠ '=' := fun hc => h (hc ▸ List.mem_cons_self c rest)
    have hrest : '=' ∉ rest := fun hm => h (List.mem_cons_of_mem c hm)
    simp only [splitOnEq, if_neg hc, ih hrest]

theorem splitOnEq_append (a b : List Char) (ha : '=' ∉ a) :
    splitOnEq (a ++ '=' :: b) = a :: splitOnEq b := by
  induction a with
  | nil => simp [splitOnEq]
  | cons c rest ih =>
    have hc : c ≠ '=' := fun hc => ha (hc ▸ List.mem_cons_self c rest)
    have hrest : '=' ∉ rest := fun hm => ha (List.mem_cons_of_mem c hm)
    simp only [List.cons_append, splitOnEq, if_neg hc, List.append_eq]
    rw [ih hrest]

theorem splitOnEq_single (l b : List Char) (h : splitOnEq l = [b]) : l = b := by
  induction l generalizing b with
  | nil => simpa [splitOnEq] using h.symm
  | cons c rest ih =>
    simp only [splitOnEq] at h
    by_cases hc : c = '='
    · rw [if_pos hc] at h
      injection h with h1 h2
      exact absurd h2 (splitOnEq_ne_nil rest)
    · rw [if_neg hc] at h
      cases hr : splitOnEq rest with
      | nil => exact absurd hr (splitOnEq_ne_nil rest)
      | cons x xs =>
        rw [hr] at h
        injection h with h1 h2
        have : splitOnEq rest = [x] := by rw [hr, h2]
        rw [← h1, ih x this]

theorem splitOnEq_pair (l a b : List Char) (h : splitOnEq l = [a, b]) :
    l = a ++ '=' :: b := by
  induction l generalizing a with
  | nil => simp [splitOnEq] at h
  | cons c rest ih =>
    simp only [splitOnEq] at h
    by_cases hc : c = '='
    · rw [if_pos hc] at h
      injection h with h1 h2
      rw [← h1, hc, List.nil_append, splitOnEq_single rest b h2]
    · rw [if_neg hc] at h
      cases hr : splitOnEq rest with
      | nil => exact absurd hr (splitOnEq_ne_nil rest)
      | cons x xs =>
        rw [hr] at h
        injection h with h1 h2
        have : splitOnEq rest = [x, b] := by rw [hr, h2]
        rw [← h1, ih x this, List.cons_append]

/-- C2: `verify_signature` returns true exactly when the supplied header is
`"sha256=" + expected`, where `expected` is the lowercase hex digest of
HMAC-SHA256 over the body with the configured secret (hex digests never
contain `'='`, which is the hypothesis).  In particular an absent or empty
header, any other scheme name, a malformed header (wrong number of `'='`
pieces) and a digest mismatch (tampered body) all yield `false`, and the
function is total — no exception escapes. -/
theorem c2_verify_signature_iff (expected : String) (header : Option String)
    (hhex : '=' ∉ expected.data) :
    verify_signature expected header = true ↔ header = some ("sha256=" ++ expected) := by
  cases header with
  | none => simp [verify_signature, pyTruthy]
  | some h =>
    constructor
    · intro hv
      unfold verify_signature at hv
      by_cases hemp : pyTruthy (some h) = false
      · rw [if_pos hemp] at hv
        exact absurd hv (by simp)
      · rw [if_neg hemp] at hv
        simp only [Option.getD_some] at hv
        rcases hsplit : splitOnEq h.data with _ | ⟨x, _ | ⟨y, _ | ⟨z, zs⟩⟩⟩ <;>
          rw [hsplit] at hv
        · exact absurd hsplit (splitOnEq_ne_nil h.data)
        · exact absurd hv (by simp)
        · have hv' : (if String.mk x ≠ "sha256" then false
              else (decide (expected = String.mk y) : Bool)) = true := hv
          by_cases hname : String.mk x ≠ "sha256"
          · rw [if_pos hname] at hv'
            exact absurd hv' (by simp)
          · rw [if_neg hname] at hv'
            have hx : x = "sha256".data := congrArg String.data (not_not.mp hname)
            have hy : expected.data = y := congrArg String.data (of_decide_eq_true hv')
            have hdata : h.data = "sha256".data ++ '=' :: y :=
              hx ▸ splitOnEq_pair h.data x y hsplit
            congr 1
            apply String.ext
            rw [String.data_append, hdata, hy]
            rfl
        · exact absurd hv (by simp)
    · intro hh
      have hh' : h = "sha256=" ++ expected := Option.some.inj hh
      have hdata : h.data = "sha256".data ++ '=' :: expected.data := by
        rw [hh', String.data_append]
        rfl
      have hsplit : splitOnEq h.data = ["sha256".data, expected.data] := by
        rw [hdata, splitOnEq_append _ _ (by decide), splitOnEq_no_eq _ hhex]
      have hne : ¬ pyTruthy (some h) = false := by
        simp only [pyTruthy, ne_eq, decide_eq_false_iff_not, not_not]
        intro h0
        rw [h0] at hdata
        exact absurd hdata.symm (by simp [String.data])
      unfold verify_signature
      rw [if_neg hne]
      simp only [Option.getD_some]
      rw [hsplit]
      show (if String.mk "sha256".data ≠ "sha256" then false
        else (decide (expected = String.mk expected.data) : Bool)) = true
      rw [if_neg (fun hcon => hcon rfl)]
      simp

/-- Witness for C2 at a concrete digest and matching header. -/
theorem c2_verify_signature_iff_witness :
    ('=' ∉ ("0a1b" : String).data) ∧
    (verify_signature "0a1b" (some "sha256=0a1b") = true ↔
      some "sha256=0a1b" = some ("sha256=" ++ "0a1b")) :=
  ⟨by decide, c2_verify_signature_iff "0a1b" (some "sha256=0a1b") (by decide)⟩

/-! ## Claim C5 — point lookup scans in insertion order -/

theorem findById_append_first (id : String) (l1 l2 : List Event) (e : Event)
    (he : e.delivery_id = some id) (hl1 : ∀ x ∈ l1, x.delivery_id ≠ some id) :
    findById id (l1 ++ e :: l2) = some e := by
  induction l1 with
  | nil => simp [findById, he]
  | cons x rest ih =>
    have hx : x.delivery_id ≠ some id := hl1 x (List.mem_cons_self x rest)
    simp only [List.cons_append, findById, if_neg hx]
    exact ih (fun y hy => hl1 y (List.mem_cons_of_mem x hy))

theorem findById_eq_none (id : String) (l : List Event)
    (h : ∀ x ∈ l, x.delivery_id ≠ some id) : findById id l = none := by
  induction l with
  | nil => rfl
  | cons x rest ih =>
    simp only [findById, if_neg (h x (List.mem_cons_self x rest))]
    exact ih (fun y hy => h y (List.mem_cons_of_mem x hy))

/-- C5: `get_event_by_id` scans the stored events in insertion order and
returns the first event whose `delivery_id` matches — so when two stored
events share a `delivery_id`, the one appended first wins — and returns
`none` when no stored event carries the id. -/
theorem c5_get_event_by_id_first_match (s : EventStore) (id : String) :
    (∀ l1 e l2, s.events = l1 ++ e :: l2 → e.delivery_id = some id →
      (∀ x ∈ l1, x.delivery_id ≠ some id) → s.get_event_by_id id = some e) ∧
    ((∀ x ∈ s.events, x.delivery_id ≠ some id) → s.get_event_by_id id = none) := by
  constructor
  · intro l1 e l2 hsplit he hl1
    unfold EventStore.get_event_by_id
    rw [hsplit]
    exact findById_append_first id l1 l2 e he hl1
  · intro h
    exact findById_eq_none id s.events h

/-- Witness for C5 on a store holding two events with the same delivery id:
the earlier-appended one is returned; a fresh id is not found. -/
theorem c5_get_event_by_id_first_match_witness :
    (EventStore.mk 10 [evW1, evDup] none).get_event_by_id "d1" = some evW1 ∧
    (EventStore.mk 10 [evW1, evDup] none).get_event_by_id "zz" = none :=
  ⟨(c5_get_event_by_id_first_match (EventStore.mk 10 [evW1, evDup] none) "d1").1
      [] evW1 [evDup] rfl (by decide) (by simp),
   (c5_get_event_by_id_first_match (EventStore.mk 10 [evW1, evDup] none) "zz").2
      (by decide)⟩

/-! ## `get_events` loop lemmas -/

theorem passesE_eq_ok (pt : String → Option Int) (et rep : Option String)
    (sd : Option Int) (e : Event) (h : repoFieldsOk rep e = true) :
    passesE pt et rep sd e = Except.ok (passesB pt et rep sd e) := by
  unfold passesE passesB
  cases h1 : (pyTruthy et && !(e.event_type = et.getD "")) with
  | true => simp [h1]
  | false =>
    simp only [h1, Bool.false_eq_true, if_false]
    cases h2 : pyTruthy rep with
    | false => simp
    | true =>
      simp only [if_true, if_pos rfl]
      cases h3 : e.repository with
      | none =>
        simp only [pyLower]
        by_cases h4 : containsSub (lowerStr "") (lowerStr (rep.getD "")) = true <;>
          simp [h4]
      | some r =>
        unfold repoFieldsOk at h
        rw [h2, h3] at h
        simp only [Bool.not_true, Bool.false_or, Bool.and_eq_true] at h
        obtain ⟨fn, hfn⟩ := Option.isSome_iff_exists.mp h.1
        obtain ⟨nm, hnm⟩ := Option.isSome_iff_exists.mp h.2
        simp only [pyLower, hfn, hnm]
        by_cases h4 : containsSub (lowerStr fn) (lowerStr (rep.getD "")) = true
        · simp [h4]
        · by_cases h5 : containsSub (lowerStr nm) (lowerStr (rep.getD "")) = true <;>
            simp [h4, h5]

theorem collectLoop_ok_of_lt (p : Event → Except String Bool)
    (pB : Event → Bool) (limit : Int) (l acc : List Event)
    (hp : ∀ e ∈ l, p e = Except.ok (pB e)) (hacc : (acc.length : Int) < limit) :
    collectLoop p limit l acc
      = Except.ok (acc ++ (l.filter pB).take (limit - acc.length).toNat) := by
  induction l generalizing acc with
  | nil => simp [collectLoop]
  | cons e rest ih =>
    have hpe : p e = Except.ok (pB e) := hp e (List.mem_cons_self e rest)
    have hprest : ∀ x ∈ rest, p x = Except.ok (pB x) :=
      fun x hx => hp x (List.mem_cons_of_mem e hx)
    simp only [collectLoop, hpe]
    cases hb : pB e with
    | false =>
      rw [ih acc hprest hacc]
      simp [List.filter_cons, hb]
    | true =>
      simp only [if_true]
      by_cases hbreak : limit ≤ ((acc ++ [e]).length : Int)
      · rw [if_pos hbreak]
        have hlim : limit = (acc.length : Int) + 1 := by
          simp only [List.length_append, List.length_cons, List.length_nil] at hbreak
          omega
        have h1 : (limit - acc.length).toNat = 1 := by omega
        simp [List.filter_cons, hb, h1, hlim]
      · rw [if_neg hbreak]
        have hacc' : ((acc ++ [e]).length : Int) < limit := by
          simp only [List.length_append, List.length_cons, List.length_nil] at hbreak ⊢
          omega
        rw [ih (acc ++ [e]) hprest hacc']
        have harith : (limit - (acc ++ [e]).length).toNat
            = (limit - acc.length).toNat - 1 := by
          simp only [List.length_append, List.length_cons, List.length_nil]
          omega
        have htake : (limit - acc.length).toNat = ((limit - acc.length).toNat - 1) + 1 := by
          omega
        simp only [List.filter_cons, hb, if_true, harith]
        rw [htake, List.take_succ_cons, List.append_assoc]
        rfl

theorem collectLoop_ok_firstMatch (p : Event → Except String Bool)
    (pB : Event → Bool) (limit : Int) (l acc : List Event)
    (hp : ∀ e ∈ l, p e = Except.ok (pB e))
    (hacc : limit ≤ (acc.length : Int) + 1) :
    collectLoop p limit l acc = Except.ok (acc ++ (l.filter pB).take 1) := by
  induction l generalizing acc with
  | nil => simp [collectLoop]
  | cons e rest ih =>
    have hpe : p e = Except.ok (pB e) := hp e (List.mem_cons_self e rest)
    have hprest : ∀ x ∈ rest, p x = Except.ok (pB x) :=
      fun x hx => hp x (List.mem_cons_of_mem e hx)
    simp only [collectLoop, hpe]
    cases hb : pB e with
    | false =>
      rw [ih acc hprest hacc]
      simp [List.filter_cons, hb]
    | true =>
      have hbreak : limit ≤ ((acc ++ [e]).length : Int) := by
        simp only [List.length_append, List.length_cons, List.length_nil]
        omega
      rw [if_pos rfl, if_pos hbreak]
      simp [List.filter_cons, hb]

/-! ## Claims C3 and C10 — filtered querying -/

/-- Counterexample to C3 as stated: on a store holding one event, a query
with `limit = 0` (no filters) returns one event, not at most `limit = 0`
events — the loop checks the bound only after appending a match. -/
theorem c3_query_counterexample :
    EventStore.get_events ptNone (EventStore.mk 10 [evW1] none) none none 0 none
      = Except.ok [evW1] ∧
    ¬ ((([evW1] : List Event).length : Int) ≤ 0) :=
  ⟨rfl, by decide⟩

/-- C3 (amended): for `limit ≥ 1`, over stores in which the repository
filter cannot hit a null name field (`repoFieldsOk`; the source raises
`AttributeError` there), `get_events` returns the newest-first prefix of
length at most `limit` of the events passing every given filter
(`passesB`: exact `event_type` match, case-insensitive substring match
against the repository's qualified or display name, inclusive `since`
lower bound with missing/unparsable timestamps passing); an unparsable
`since` behaves identically to no `since`; and with no filters and
`limit ≤` the store size the result is exactly the `limit` most recently
appended events, newest first. -/
theorem c3_query_amended (pt : String → Option Int) (s : EventStore)
    (et rep : Option String) (limit : Int) (since : Option String)
    (hlim : 1 ≤ limit)
    (hrep : ∀ e ∈ s.events, repoFieldsOk rep e = true) :
    (EventStore.get_events pt s et rep limit since
       = Except.ok ((s.events.reverse.filter
           (passesB pt et rep (sinceDt pt since))).take limit.toNat)) ∧
    ((((s.events.reverse.filter (passesB pt et rep (sinceDt pt since))).take
        limit.toNat).length : Int) ≤ limit) ∧
    (∀ s0 : String, pt (replaceZ s0) = none →
      EventStore.get_events pt s et rep limit (some s0)
        = EventStore.get_events pt s et rep limit none) ∧
    ((et = none ∧ rep = none ∧ since = none ∧ limit ≤ (s.events.length : Int)) →
      EventStore.get_events pt s et rep limit since
        = Except.ok (s.events.reverse.take limit.toNat) ∧
      (s.events.reverse.take limit.toNat).length = limit.toNat) := by
  have hp : ∀ e ∈ s.events.reverse,
      passesE pt et rep (sinceDt pt since) e
        = Except.ok (passesB pt et rep (sinceDt pt since) e) :=
    fun e he => passesE_eq_ok pt et rep (sinceDt pt since) e
      (hrep e (List.mem_reverse.mp he))
  have hmain : EventStore.get_events pt s et rep limit since
      = Except.ok ((s.events.reverse.filter
          (passesB pt et rep (sinceDt pt since))).take limit.toNat) := by
    unfold EventStore.get_events
    rw [collectLoop_ok_of_lt _ _ limit _ [] hp (by simpa using hlim)]
    simp
  refine ⟨hmain, ?_, ?_, ?_⟩
  · have h1 : ((s.events.reverse.filter
        (passesB pt et rep (sinceDt pt since))).take limit.toNat).length
        ≤ limit.toNat := by
      rw [List.length_take]
      omega
    omega
  · intro s0 hparse
    have hsd : sinceDt pt (some s0) = sinceDt pt none := by
      unfold sinceDt
      by_cases h0 : pyTruthy (some s0) = true
      · simp [h0, pyTruthy, hparse]
      · have h1 : pyTruthy (some s0) = false := by
          cases hb : pyTruthy (some s0)
          · rfl
          · exact absurd hb h0
        simp [h1, pyTruthy, hparse]
    unfold EventStore.get_events
    rw [hsd]
  · rintro ⟨het, hrep0, hsince, hsize⟩
    subst het hrep0 hsince
    have hall : ∀ e ∈ s.events.reverse,
        passesB pt none none (sinceDt pt none) e = true := fun e _ => rfl
    have hfilter : s.events.reverse.filter
        (passesB pt none none (sinceDt pt none)) = s.events.reverse :=
      List.filter_eq_self.mpr hall
    rw [hmain, hfilter]
    refine ⟨rfl, ?_⟩
    rw [List.length_take, List.length_reverse]
    omega

/-- Witness for C3 (amended), main conjunct, on a two-event store with no
filters and `limit = 2`. -/
theorem c3_query_amended_witness :
    EventStore.get_events ptNone (EventStore.mk 10 [evW1, evW2] none) none none 2 none
      = Except.ok (((EventStore.mk 10 [evW1, evW2] none).events.reverse.filter
          (passesB ptNone none none (sinceDt ptNone none))).take (2 : Int).toNat) :=
  (c3_query_amended ptNone (EventStore.mk 10 [evW1, evW2] none) none none 2 none
    (by decide) (by decide)).1

/-- C10: with `limit ≤ 0` and at least one stored event passing the given
filters (and no null repository name in the way), `get_events` returns
exactly one event — the most recent match, i.e. the first element of the
reverse-insertion-order scan that passes — because the loop checks
`len(results) >= limit` only after appending a match. -/
theorem c10_limit_nonpositive (pt : String → Option Int) (s : EventStore)
    (et rep : Option String) (limit : Int) (since : Option String)
    (hlim : limit ≤ 0)
    (hrep : ∀ e ∈ s.events, repoFieldsOk rep e = true)
    (hex : ∃ e ∈ s.events, passesB pt et rep (sinceDt pt since) e = true) :
    EventStore.get_events pt s et rep limit since
      = Except.ok ((s.events.reverse.filter
          (passesB pt et rep (sinceDt pt since))).take 1) ∧
    ((s.events.reverse.filter
        (passesB pt et rep (sinceDt pt since))).take 1).length = 1 := by
  have hp : ∀ e ∈ s.events.reverse,
      passesE pt et rep (sinceDt pt since) e
        = Except.ok (passesB pt et rep (sinceDt pt since) e) :=
    fun e he => passesE_eq_ok pt et rep (sinceDt pt since) e
      (hrep e (List.mem_reverse.mp he))
  constructor
  · unfold EventStore.get_events
    rw [collectLoop_ok_firstMatch _ _ limit _ [] hp (by simpa using hlim.trans (by omega))]
    simp
  · obtain ⟨e, he, hpass⟩ := hex
    have hmem : e ∈ s.events.reverse.filter (passesB pt et rep (sinceDt pt since)) :=
      List.mem_filter.mpr ⟨List.mem_reverse.mpr he, hpass⟩
    have hne : s.events.reverse.filter (passesB pt et rep (sinceDt pt since)) ≠ [] :=
      List.ne_nil_of_mem hmem
    rw [List.length_take]
    have := List.length_pos.mpr hne
    omega

/-- Witness for C10 on a one-event store with `limit = 0`. -/
theorem c10_limit_nonpositive_witness :
    (EventStore.get_events ptNone (EventStore.mk 10 [evW1] none) none none 0 none
      = Except.ok (((EventStore.mk 10 [evW1] none).events.reverse.filter
          (passesB ptNone none none (sinceDt ptNone none))).take 1)) ∧
    (((EventStore.mk 10 [evW1] none).events.reverse.filter
        (passesB ptNone none none (sinceDt ptNone none))).take 1).length = 1 :=
  c10_limit_nonpositive ptNone (EventStore.mk 10 [evW1] none) none none 0 none
    (by decide) (by decide) ⟨evW1, by simp, by decide⟩

/-! ## Claims C4 and C8 — persistence -/

theorem takeLast_pySliceLast (n : Nat) (l : List α) :
    takeLast n (pySliceLast n l) = takeLast n l := by
  unfold pySliceLast
  by_cases h : n = 0
  · rw [if_pos h]
  · rw [if_neg h]
    exact takeLast_of_le (length_takeLast_le n l)

theorem foldl_add_event_file_ne_nil (es : List Event) (s : EventStore)
    (h : es ≠ []) :
    (es.foldl (fun st e => st.add_event e true) s).file
      = some ((es.foldl (fun st e => st.add_event e true) s).events) := by
  induction es generalizing s with
  | nil => exact absurd rfl h
  | cons e rest ih =>
    cases rest with
    | nil => rfl
    | cons e2 rest2 =>
      simp only [List.foldl_cons]
      exact ih (s.add_event e true) (by simp)

/-- C4: appending any sequence of events to a fresh log of capacity `N`
(every flush succeeding) and then constructing a fresh log instance from
the resulting durable file yields the same bounded tail — the last
`min(N, total)` events, i.e. `takeLast N es` — in the same order. -/
theorem c4_round_trip (N : Nat) (es : List Event) :
    (EventStore.init N
        ((es.foldl (fun st e => st.add_event e true) (EventStore.init N none)).file.map
          Except.ok)).events
      = (es.foldl (fun st e => st.add_event e true) (EventStore.init N none)).events ∧
    (es.foldl (fun st e => st.add_event e true) (EventStore.init N none)).events
      = takeLast N es := by
  have hspec := foldl_add_event_spec es (EventStore.init N none) true
  have hev : (es.foldl (fun st e => st.add_event e true) (EventStore.init N none)).events
      = takeLast N es := by
    rw [hspec.2]
    show List.foldl (dequeAppend N) [] es = takeLast N es
    rw [foldl_dequeAppend N es [] (by simp)]
    rw [List.nil_append]
  refine ⟨?_, hev⟩
  by_cases hnil : es = []
  · subst hnil
    rfl
  · have hfile := foldl_add_event_file_ne_nil es (EventStore.init N none) hnil
    rw [hfile]
    show (pySliceLast N _).foldl (dequeAppend N) [] = _
    rw [foldl_dequeAppend N _ [] (by simp), List.nil_append, takeLast_pySliceLast]
    rw [hev]
    exact takeLast_of_le (length_takeLast_le N es)

theorem getLast?_dequeAppend (n : Nat) (l : List α) (e : α) (h : 1 ≤ n) :
    (dequeAppend n l e).getLast? = some e := by
  unfold dequeAppend
  by_cases hc : n < (l ++ [e]).length
  · rw [if_pos hc]
    have hk : (l ++ [e]).length - n ≤ l.length := by
      simp only [List.length_append, List.length_cons, List.length_nil]
      omega
    rw [List.drop_append_eq_append_drop, Nat.sub_eq_zero_of_le hk, List.drop_zero,
        List.getLast?_concat]
  · rw [if_neg hc]
    exact List.getLast?_concat l

/-- C8: persistence failures are non-fatal and invisible to callers — a
missing durable file or a failed load (`Except.error`) yields an empty log
instead of an exception; and an append whose flush fails returns normally
with exactly the same in-memory state as one whose flush succeeds, the
appended event sitting at the tail (for any store of capacity at least 1). -/
theorem c8_persistence_failures (N : Nat) (msg : String) (s : EventStore) (e : Event) :
    (EventStore.init N none).events = [] ∧
    (EventStore.init N (some (Except.error msg))).events = [] ∧
    (s.add_event e false).events = (s.add_event e true).events ∧
    (1 ≤ s.max_size → (s.add_event e false).events.getLast? = some e) := by
  refine ⟨rfl, rfl, rfl, fun h => ?_⟩
  exact getLast?_dequeAppend s.max_size s.events e h

/-- Witness for C8 at capacity 2, one stored event and a failing flush. -/
theorem c8_persistence_failures_witness :
    (EventStore.init 2 none).events = [] ∧
    (EventStore.init 2 (some (Except.error "corrupt JSON"))).events = [] ∧
    ((EventStore.mk 2 [evW1] (some [evW1])).add_event evW2 false).events
      = ((EventStore.mk 2 [evW1] (some [evW1])).add_event evW2 true).events ∧
    ((EventStore.mk 2 [evW1] (some [evW1])).add_event evW2 false).events.getLast?
      = some evW2 := by
  have h := c8_persistence_failures 2 "corrupt JSON"
    (EventStore.mk 2 [evW1] (some [evW1])) evW2
  exact ⟨h.1, h.2.1, h.2.2.1, h.2.2.2 (by decide)⟩

/-! ## Claims C6 and C7 — admission filter and normalizer -/

/-- A payload whose repository record carries no `name` key (so the
normalizer sets `name = None`). -/
def payloadNoName : Payload :=
  ⟨some "opened", some ⟨none, none, some "acme/x", none, none, none⟩,
   none, none, none, none, none, [], none, none, none, none⟩

/-- A payload with no `repository` key at all. -/
def payloadNoRepo : Payload :=
  ⟨some "opened", none, none, none, none, none, none, [], none, none, none, none⟩

/-- A payload for a repository named `test-repo`. -/
def payloadTestRepo : Payload :=
  ⟨some "opened", some ⟨some 2, some "test-repo", some "acme/test-repo", none, none, none⟩,
   none, none, none, none, none, [], none, none, none, none⟩

/-- C6 (code bug): the admission filter rejects `parse_error` records and
repositories whose name contains `test`, and accepts ordinary events — but
on a normalized event whose repository record is present with a null
`name` (exactly what the normalizer produces for a payload whose
repository has no name), `should_process_event` raises `AttributeError`
(`None.lower()`) instead of returning `True` as the claim states. -/
theorem c6_admission_filter_null_name :
    (parse_event (some payloadNoName) (some "issues") (some "d9") "2025-01-02T00:00:00").repository
      = some ⟨none, none, some "acme/x", none, some false, none⟩ ∧
    should_process_event
        (parse_event (some payloadNoName) (some "issues") (some "d9") "2025-01-02T00:00:00")
      = Except.error "AttributeError" ∧
    should_process_event
        (parse_event none (some "issues") (some "d8") "2025-01-02T00:00:00")
      = Except.ok false ∧
    should_process_event
        (parse_event (some payloadTestRepo) (some "issues") (some "d7") "2025-01-02T00:00:00")
      = Except.ok false ∧
    should_process_event evW1 = Except.ok true :=
  ⟨rfl, rfl, rfl, rfl, rfl⟩

/-- Counterexample to C7 as stated: for a payload lacking `repository`
entirely, the normalized repository record's `private` sub-field is
`False` (the source's `.get('private', False)` default), not absent/null. -/
theorem c7_private_not_null_counterexample :
    (parse_event (some payloadNoRepo) (some "issues") (some "d7") "2025-01-03T00:00:00").repository
      = some ⟨none, none, none, none, some false, none⟩ ∧
    (some false : Option Bool) ≠ none :=
  ⟨rfl, by decide⟩

/-- C7 (amended): a payload lacking the `repository` key normalizes
without error — the result is a full normal record (no `parse_error` tag,
no `error` field, `delivery_id` and `timestamp` populated) — and every
repository sub-field is absent/null except `private`, which defaults to
`False`. -/
theorem c7_missing_repository_amended (p : Payload) (et di : Option String)
    (now : String) (hrepo : p.repository = none) :
    (parse_event (some p) et di now).error_msg = none ∧
    (parse_event (some p) et di now).delivery_id = some (di.getD "unknown") ∧
    (parse_event (some p) et di now).timestamp = some now ∧
    (parse_event (some p) et di now).repository
      = some ⟨none, none, none, none, some false, none⟩ := by
  refine ⟨rfl, rfl, rfl, ?_⟩
  simp [parse_event, extract_repository_info, hrepo]

/-- Witness for C7 (amended) at a concrete payload without `repository`. -/
theorem c7_missing_repository_amended_witness :
    (parse_event (some payloadNoRepo) (some "issues") (some "d7") "T").error_msg = none ∧
    (parse_event (some payloadNoRepo) (some "issues") (some "d7") "T").delivery_id
      = some ((some "d7").getD "unknown") ∧
    (parse_event (some payloadNoRepo) (some "issues") (some "d7") "T").timestamp = some "T" ∧
    (parse_event (some payloadNoRepo) (some "issues") (some "d7") "T").repository
      = some ⟨none, none, none, none, some false, none⟩ :=
  c7_missing_repository_amended payloadNoRepo (some "issues") (some "d7") "T" rfl

/-! ## Claim C9 — retention invariant -/

theorem storeTsInv_drop (l : List Event) (k : Nat) (h : storeTsInv l) :
    storeTsInv (l.drop k) := by
  constructor
  · exact fun e he => h.1 e ((List.drop_sublist k l).subset he)
  · exact h.2.sublist (List.drop_sublist k l)

/-- If the admission filter accepts a freshly parsed event and the
event-type header is not the empty string, the event is a normal record:
non-empty `event_type` and `timestamp` equal to the ingestion instant. -/
theorem parse_event_of_filter_ok (pl : Option Payload) (hdr did : Option String)
    (t : String)
    (hok : should_process_event (parse_event pl hdr did t) = Except.ok true)
    (hh : hdr ≠ some "") :
    (parse_event pl hdr did t).event_type ≠ "" ∧
    (parse_event pl hdr did t).timestamp = some t := by
  cases pl with
  | none => exact absurd hok (by simp [parse_event, should_process_event])
  | some p =>
    constructor
    · cases hdr with
      | none => simp [parse_event]
      | some hv =>
        have hv0 : hv ≠ "" := fun h0 => hh (by rw [h0])
        simp [parse_event, hv0]
    · rfl

theorem handle_foldl_inv (ds : List Delivery) (s : EventStore)
    (hhdr : ∀ d ∈ ds, d.event_type_header ≠ some "")
    (hmono : ds.Pairwise (fun a b => strLe a.time b.time = true))
    (hs : storeTsInv s.events)
    (hbound : ∀ e ∈ s.events, ∀ d ∈ ds, strLe (e.timestamp.getD "") d.time = true) :
    storeTsInv ((ds.foldl handle_delivery s).events) := by
  induction ds generalizing s with
  | nil => exact hs
  | cons d ds ih =>
    simp only [List.foldl_cons]
    have hmono' := List.pairwise_cons.mp hmono
    apply ih (handle_delivery s d)
      (fun d' hd' => hhdr d' (List.mem_cons_of_mem d hd'))
      hmono'.2
    case hs =>
      unfold handle_delivery
      cases hfil : should_process_event
          (parse_event d.payload d.event_type_header d.delivery_id_header d.time) with
      | error err => exact hs
      | ok b =>
        cases b with
        | false => exact hs
        | true =>
          have hev := parse_event_of_filter_ok d.payload d.event_type_header
            d.delivery_id_header d.time hfil (hhdr d (List.mem_cons_self d ds))
          show storeTsInv
            (dequeAppend s.max_size s.events
              (parse_event d.payload d.event_type_header d.delivery_id_header d.time))
          rw [dequeAppend_eq_takeLast]
          apply storeTsInv_drop
          constructor
          · intro e he
            rcases List.mem_append.mp he with hold | hnew
            · exact hs.1 e hold
            · rw [List.mem_singleton.mp hnew]
              exact ⟨hev.1, by rw [hev.2]; rfl⟩
          · rw [List.pairwise_append]
            refine ⟨hs.2, List.pairwise_singleton _ _, ?_⟩
            intro a ha b hb
            rw [List.mem_singleton.mp hb, hev.2]
            exact hbound a ha d (List.mem_cons_self d ds)
    case hbound =>
      intro e he d' hd'
      unfold handle_delivery at he
      revert he
      cases hfil : should_process_event
          (parse_event d.payload d.event_type_header d.delivery_id_header d.time) with
      | error err => exact fun he => hbound e he d' (List.mem_cons_of_mem d hd')
      | ok b =>
        cases b with
        | false => exact fun he => hbound e he d' (List.mem_cons_of_mem d hd')
        | true =>
          intro he
          have hev := parse_event_of_filter_ok d.payload d.event_type_header
            d.delivery_id_header d.time hfil (hhdr d (List.mem_cons_self d ds))
          have he' : e ∈ s.events ++
              [parse_event d.payload d.event_type_header d.delivery_id_header d.time] := by
            have hsub := List.drop_sublist
              ((s.events ++ [parse_event d.payload d.event_type_header
                d.delivery_id_header d.time]).length - s.max_size)
              (s.events ++ [parse_event d.payload d.event_type_header
                d.delivery_id_header d.time])
            apply hsub.subset
            rw [← takeLast, ← dequeAppend_eq_takeLast]
            exact he
          rcases List.mem_append.mp he' with hold | hnew
          · exact hbound e hold d' (List.mem_cons_of_mem d hd')
          · rw [List.mem_singleton.mp hnew, hev.2]
            exact hmono'.1 d' hd'

/-- A payload for an ordinary production repository (passes the filter). -/
def payloadProd : Payload :=
  ⟨some "opened", some ⟨some 3, some "prod", some "acme/prod", none, none, none⟩,
   none, none, none, none, none, [], none, none, none, none⟩

/-- A delivery whose `X-GitHub-Event` header is present but empty. -/
def deliveryEmptyHeader : Delivery :=
  ⟨some "", some "dx", some payloadProd, "2025-01-01T00:00:00"⟩

/-- Counterexample to C9 as stated: one delivery whose event-type header is
the empty string passes the filter and is retained with
`event_type = ""`, so a reachable log state violates the non-empty
`event_type` invariant. -/
theorem c9_invariant_counterexample :
    ((handle_delivery (EventStore.init 5 none) deliveryEmptyHeader).events.map
        Event.event_type = [""]) ∧
    ¬ storeTsInv ((handle_delivery (EventStore.init 5 none) deliveryEmptyHeader).events) := by
  refine ⟨rfl, ?_⟩
  unfold storeTsInv
  decide

/-- C9 (amended): over every log state reached by running the ingestion
pipeline (normalize → filter → append) on a sequence of deliveries whose
event-type headers are never the empty string (absent is fine — it
defaults to `unknown`) and whose ingestion clock is monotone
non-decreasing, every stored event has a non-empty `event_type` and an
ingestion timestamp, and timestamps are non-decreasing in insertion order;
the invariant also survives reloading a durable file that satisfies it. -/
theorem c9_invariant_amended (N : Nat) (ds : List Delivery) (l : List Event)
    (hhdr : ∀ d ∈ ds, d.event_type_header ≠ some "")
    (hmono : ds.Pairwise (fun a b => strLe a.time b.time = true))
    (hl : storeTsInv l) :
    storeTsInv ((ds.foldl handle_delivery (EventStore.init N none)).events) ∧
    storeTsInv ((EventStore.init N (some (Except.ok l))).events) := by
  constructor
  · apply handle_foldl_inv ds (EventStore.init N none) hhdr hmono
    · exact ⟨fun e he => absurd he (by simp [EventStore.init]), by
        show List.Pairwise _ ([] : List Event)
        exact List.Pairwise.nil⟩
    · intro e he
      exact absurd he (by simp [EventStore.init])
  · have hinit : (EventStore.init N (some (Except.ok l))).events = takeLast N l := by
      show (pySliceLast N l).foldl (dequeAppend N) [] = _
      rw [foldl_dequeAppend N _ [] (by simp), List.nil_append, takeLast_pySliceLast]
    rw [hinit]
    exact storeTsInv_drop l _ hl

/-- Witness for C9 (amended) on two concrete deliveries with monotone
ingestion times and a concrete well-formed durable file. -/
theorem c9_invariant_amended_witness :
    storeTsInv (([⟨some "issues", some "dA", some payloadProd, "2025-01-01T00:00:01"⟩,
        ⟨none, some "dB", some payloadProd, "2025-01-01T00:00:02"⟩] : List Delivery).foldl
          handle_delivery (EventStore.init 5 none)).events ∧
    storeTsInv ((EventStore.init 5 (some (Except.ok [evW1, evW2]))).events) :=
  c9_invariant_amended 5
    [⟨some "issues", some "dA", some payloadProd, "2025-01-01T00:00:01"⟩,
     ⟨none, some "dB", some payloadProd, "2025-01-01T00:00:02"⟩]
    [evW1, evW2]
    (by decide)
    (by decide)
    (by unfold storeTsInv; decide)
